import Mathlib

/-!
Verification of the czid-dedup deduplication/clustering engine
(src/clusters.rs, src/fastx.rs, src/main.rs) against its design
specification.

The Rust code is shallowly embedded: byte slices become lists of natural
numbers (each < 256, the u8 range), u64 arithmetic is natural-number
arithmetic taken modulo 2 ^ 64, the HashMap from fingerprints to clusters
becomes an association list (the code never iterates the map, so only
lookup and insert semantics matter), the optional csv writer becomes an
optional sink recording its rows together with an explicit schedule of
write outcomes (so that I/O failures of write_record are expressible),
and the std DefaultHasher is embedded as what it is documented and
implemented to be: SipHash-1-3 with both keys fixed to zero, fed the
bytes written to the hasher.
-/

/-! ## Byte-slice primitives -/

/-- Lexicographic comparison of byte slices, mirroring the Ord instance for
Rust slices that insert_single and insert_pair rely on: compare elementwise,
first difference decides, otherwise the shorter slice is smaller. -/
def lexCmp : List Nat → List Nat → Ordering
  | [], [] => .eq
  | [], _ :: _ => .lt
  | _ :: _, [] => .gt
  | a :: as, b :: bs =>
    if a < b then .lt else if b < a then .gt else lexCmp as bs

/-- Embedding of the slice comparison seq <= rev_seq used by insert_single
(PartialOrd::le derived from lexicographic cmp). -/
def lexLe (a b : List Nat) : Bool :=
  match lexCmp a b with
  | .gt => false
  | _ => true

/-- Embedding of the strict tuple comparison
(r1_seq, r2_seq) < (r1_revcomp, r2_revcomp) used by insert_pair: Rust
compares the first components and breaks ties on the second. -/
def pairLt (a b : List Nat × List Nat) : Bool :=
  match lexCmp a.1 b.1 with
  | .lt => true
  | .eq =>
    match lexCmp a.2 b.2 with
    | .lt => true
    | _ => false
  | .gt => false

/-- Embedding of bio::alphabets::dna::complement: a 256-entry table that
swaps the IUPAC nucleotide codes with their complements (upper and lower
case) and is the identity on every other byte. -/
def complement (b : Nat) : Nat :=
  match b with
  | 65 => 84 | 84 => 65 | 71 => 67 | 67 => 71
  | 89 => 82 | 82 => 89 | 87 => 87 | 83 => 83
  | 75 => 77 | 77 => 75 | 68 => 72 | 72 => 68
  | 86 => 66 | 66 => 86 | 78 => 78
  | 97 => 116 | 116 => 97 | 103 => 99 | 99 => 103
  | 121 => 114 | 114 => 121 | 119 => 119 | 115 => 115
  | 107 => 109 | 109 => 107 | 100 => 104 | 104 => 100
  | 118 => 98 | 98 => 118 | 110 => 110
  | other => other

/-- Embedding of bio::alphabets::dna::revcomp: reverse the slice and
complement each byte. -/
def revcomp (seq : List Nat) : List Nat :=
  (seq.reverse).map complement

/-! ## SipHash-1-3, the std DefaultHasher

DefaultHasher::new() is SipHasher13::new_with_keys(0, 0); Hasher::write
feeds bytes into the SipHash-1-3 stream, and finish() pads with the
length byte and runs the three finalization rounds.  All u64 state is
modelled as Nat reduced modulo 2 ^ 64. -/

/-- Wrapping 64-bit addition. -/
def add64 (a b : Nat) : Nat := (a + b) % 2 ^ 64

/-- Bitwise xor, reduced into the 64-bit range. -/
def xor64 (a b : Nat) : Nat := (a ^^^ b) % 2 ^ 64

/-- 64-bit left rotation. -/
def rotl64 (x n : Nat) : Nat := ((x <<< n) ||| (x >>> (64 - n))) % 2 ^ 64

/-- The four 64-bit state words of a SipHash hasher. -/
structure SipState where
  v0 : Nat
  v1 : Nat
  v2 : Nat
  v3 : Nat

/-- One SIPROUND of the SipHash permutation. -/
def sipRound (s : SipState) : SipState :=
  let v0 := add64 s.v0 s.v1
  let v1 := rotl64 s.v1 13
  let v1 := xor64 v1 v0
  let v0 := rotl64 v0 32
  let v2 := add64 s.v2 s.v3
  let v3 := rotl64 s.v3 16
  let v3 := xor64 v3 v2
  let v0 := add64 v0 v3
  let v3 := rotl64 v3 21
  let v3 := xor64 v3 v0
  let v2 := add64 v2 v1
  let v1 := rotl64 v1 17
  let v1 := xor64 v1 v2
  let v2 := rotl64 v2 32
  ⟨v0, v1, v2, v3⟩

/-- Absorb one 8-byte message word: one compression round for the "1" in
SipHash-1-3. -/
def sipCompress (s : SipState) (m : Nat) : SipState :=
  let s := { s with v3 := xor64 s.v3 m }
  let s := sipRound s
  { s with v0 := xor64 s.v0 m }

/-- Little-endian integer value of a byte list (first byte least
significant). -/
def leWord (bytes : List Nat) : Nat :=
  bytes.foldr (fun b acc => b % 256 + 256 * acc) 0

/-- Absorb the message stream eight bytes at a time; the final short block
(fewer than eight bytes) is combined with the total length modulo 256 in
the top byte, as SipHash specifies. -/
def sipBlocks (len : Nat) (s : SipState) : List Nat → SipState
  | b0 :: b1 :: b2 :: b3 :: b4 :: b5 :: b6 :: b7 :: rest =>
    sipBlocks len (sipCompress s (leWord [b0, b1, b2, b3, b4, b5, b6, b7])) rest
  | rest => sipCompress s (leWord rest + len % 256 * 2 ^ 56)

/-- SipHash-1-3 with both keys zero over a byte stream: exactly the value
DefaultHasher::finish returns after the stream has been written. -/
def sipHash13 (data : List Nat) : Nat :=
  let s : SipState :=
    ⟨0x736f6d6570736575, 0x646f72616e646f6d, 0x6c7967656e657261, 0x7465646279746573⟩
  let s := sipBlocks data.length s data
  let s := { s with v2 := xor64 s.v2 0xff }
  let s := sipRound (sipRound (sipRound s))
  xor64 (xor64 s.v0 s.v1) (xor64 s.v2 s.v3)

/-! ## Records -/

/-- A fastx record as the engine sees it through the fastx::Record trait:
an identifier and a byte sequence. -/
structure FRecord where
  id : String
  seq : List Nat
deriving DecidableEq

/-- Modelled from the spec: the paired module (src/paired.rs) is not part
of the inspected sources; per the specification a synchronized pair
exposes the two mates, each independently readable, and one
externally-determined identifier. -/
structure PairedRecord where
  r1 : FRecord
  r2 : FRecord
  id : String
deriving DecidableEq

/-! ## The cluster registry (src/clusters.rs) -/

/-- One cluster: the representative id (immutable once set) and the count
of records mapped to its fingerprint. -/
structure Cluster where
  id : String
  size : Nat
deriving DecidableEq

/-- The optional membership csv writer: the rows it has committed, plus an
explicit schedule of outcomes for the next write_record calls (an empty
schedule means every write succeeds; a false entry makes the
corresponding write fail with a csv error). -/
structure Sink where
  rows : List (List String)
  outcomes : List Bool
deriving DecidableEq

/-- One write_record call against the sink: reports success or failure and
the updated sink. -/
def sinkWrite (w : Sink) (row : List String) : Bool × Sink :=
  match w.outcomes with
  | [] => (true, ⟨w.rows ++ [row], []⟩)
  | ok :: rest => (ok, ⟨if ok then w.rows ++ [row] else w.rows, rest⟩)

/-- The Clusters registry state.  The HashMap from u64 fingerprints to
clusters is an association list (the code never iterates the map); the
first-seen order vector and the running total mirror the Rust fields. -/
structure Clusters where
  cluster_map : List (Nat × Cluster)
  cluster_order : List Nat
  cluster_csv_writer : Option Sink
  total_records : Nat
  prefix_length_opt : Option Nat
deriving DecidableEq

/-- Key lookup in the fingerprint map, mirroring HashMap::get_mut. -/
def findCluster : List (Nat × Cluster) → Nat → Option Cluster
  | [], _ => none
  | (k, cl) :: rest, h => if k = h then some cl else findCluster rest h

/-- In-place size increment of the cluster stored under a key, mirroring
the cluster.size += 1 through HashMap::get_mut. -/
def bumpSize : List (Nat × Cluster) → Nat → List (Nat × Cluster)
  | [], _ => []
  | (k, cl) :: rest, h =>
    if k = h then (k, ⟨cl.id, cl.size + 1⟩) :: rest else (k, cl) :: bumpSize rest h

/-- Embedding of Clusters::insert_record.  The state is threaded
explicitly; the Except value is the Result<bool, csv::Error> return. -/
def insert_record (c : Clusters) (seq_hash : Nat) (id : String) (is_revcomp : Bool) :
    Clusters × Except Unit Bool :=
  let c := { c with total_records := c.total_records + 1 }
  match findCluster c.cluster_map seq_hash with
  | some cluster =>
    let c := { c with cluster_map := bumpSize c.cluster_map seq_hash }
    match c.cluster_csv_writer with
    | some w =>
      let id_entry := if is_revcomp then id ++ " (rc)" else id
      let r := sinkWrite w [cluster.id, id_entry]
      ({ c with cluster_csv_writer := some r.2 },
        if r.1 then .ok false else .error ())
    | none => (c, .ok false)
  | none =>
    match c.cluster_csv_writer with
    | some w =>
      let r := sinkWrite w [id, id]
      ({ c with
          cluster_map := c.cluster_map ++ [(seq_hash, ⟨id, 1⟩)],
          cluster_order := c.cluster_order ++ [seq_hash],
          cluster_csv_writer := some r.2 },
        if r.1 then .ok true else .error ())
    | none =>
      ({ c with
          cluster_map := c.cluster_map ++ [(seq_hash, ⟨id, 1⟩)],
          cluster_order := c.cluster_order ++ [seq_hash] },
        .ok true)

/-- Embedding of Clusters::get_prefix: truncate a sequence to the
configured prefix length, capped at the sequence length. -/
def get_prefix_seq (prefix_length_opt : Option Nat) (seq : List Nat) : List Nat :=
  let seq_length := seq.length
  let prefix_length := (prefix_length_opt.map (fun n => min n seq_length)).getD seq_length
  seq.take prefix_length

/-- The canonical-form selection inside insert_single: with strand
symmetry on, keep the original sequence when seq <= revcomp(seq), else
switch to the reverse complement and record the flip. -/
def singleCanonical (seq : List Nat) (use_revcomp : Bool) : List Nat × Bool :=
  if use_revcomp then
    let rev_seq := revcomp seq
    if lexLe seq rev_seq then (seq, false) else (rev_seq, true)
  else (seq, false)

/-- Embedding of Clusters::insert_single: canonicalize, hash the
truncated canonical bytes with the DefaultHasher, insert. -/
def insert_single (c : Clusters) (record : FRecord) (use_revcomp : Bool) :
    Clusters × Except Unit Bool :=
  let canonical := singleCanonical record.seq use_revcomp
  let seq_hash := sipHash13 (get_prefix_seq c.prefix_length_opt canonical.1)
  insert_record c seq_hash record.id canonical.2

/-- The canonical-form selection inside insert_pair, exactly as the code
branches: when (r1_seq, r2_seq) < (revcomp(r1_seq), revcomp(r2_seq)) in
tuple lexicographic order the reverse-complemented pair is returned with
the flip flag set, otherwise the original pair is returned unflipped. -/
def pairCanonical (r1_seq r2_seq : List Nat) (use_revcomp : Bool) :
    (List Nat × List Nat) × Bool :=
  if use_revcomp then
    let r1_revcomp := revcomp r1_seq
    let r2_revcomp := revcomp r2_seq
    if pairLt (r1_seq, r2_seq) (r1_revcomp, r2_revcomp) then
      ((r1_revcomp, r2_revcomp), true)
    else ((r1_seq, r2_seq), false)
  else ((r1_seq, r2_seq), false)

/-- The byte stream insert_pair feeds to the hasher: truncated mate 1,
then the four zero bytes of Hash::hash(&0) (an i32 zero), then truncated
mate 2. -/
def pairHashStream (prefix_length_opt : Option Nat) (r1_canon r2_canon : List Nat) :
    List Nat :=
  get_prefix_seq prefix_length_opt r1_canon ++ [0, 0, 0, 0] ++
    get_prefix_seq prefix_length_opt r2_canon

/-- Embedding of Clusters::insert_pair. -/
def insert_pair (c : Clusters) (record : PairedRecord) (use_revcomp : Bool) :
    Clusters × Except Unit Bool :=
  let canonical := pairCanonical record.r1.seq record.r2.seq use_revcomp
  let seq_hash := sipHash13 (pairHashStream c.prefix_length_opt canonical.1.1 canonical.1.2)
  insert_record c seq_hash record.id canonical.2

/-- Embedding of Clusters::unique_records: the number of entries of the
fingerprint map. -/
def unique_records (c : Clusters) : Nat := c.cluster_map.length

/-- Embedding of Clusters::duplicate_records: total minus unique. -/
def duplicate_records (c : Clusters) : Nat := c.total_records - unique_records c

/-- One size-summary row: the looked-up cluster's representative id and
decimal size.  The code unwraps the map lookup (guaranteed to be
present); the none branch below is unreachable for every state the
registry actually produces. -/
def sizeRow (m : List (Nat × Cluster)) (cluster_hash : Nat) : List String :=
  match findCluster m cluster_hash with
  | some cluster => [cluster.id, toString cluster.size]
  | none => []

/-- Embedding of Clusters::write_sizes: the header row followed by one
row per cluster in first-seen order. -/
def write_sizes (c : Clusters) : List (List String) :=
  ["representative read id", "cluster size"] ::
    c.cluster_order.map (sizeRow c.cluster_map)

/-- Embedding of Clusters::from_writer: a fresh registry whose optional
membership writer has committed the header row.  The capacity hint is a
performance hint only and is not modelled. -/
def from_writer (cluster_output_opt : Option Sink) (prefix_length_opt : Option Nat) :
    Except Unit Clusters :=
  match cluster_output_opt with
  | some w =>
    let r := sinkWrite w ["representative read id", "read id"]
    if r.1 then .ok ⟨[], [], some r.2, 0, prefix_length_opt⟩ else .error ()
  | none => .ok ⟨[], [], none, 0, prefix_length_opt⟩

/-! ## The driving loop, restricted to what reaches the registry -/

/-- One logical record handed to the engine by the driving loop. -/
inductive Op where
  | single (record : FRecord)
  | paired (record : PairedRecord)
deriving DecidableEq

/-- One step of the driving loop: route the record to insert_single or
insert_pair. -/
def applyOp (use_revcomp : Bool) (c : Clusters) (op : Op) : Clusters × Except Unit Bool :=
  match op with
  | .single r => insert_single c r use_revcomp
  | .paired r => insert_pair c r use_revcomp

/-- The registry state after a sequence of insertions. -/
def runOps (c : Clusters) (use_revcomp : Bool) (ops : List Op) : Clusters :=
  ops.foldl (fun st op => (applyOp use_revcomp st op).1) c

/-- The rows the membership sink holds, when one is configured. -/
def membershipRows (c : Clusters) : Option (List (List String)) :=
  c.cluster_csv_writer.map Sink.rows

/-- The fingerprint an operation hashes to, as a function of the
configuration alone (the registry never changes its prefix length). -/
def opFingerprint (prefix_length_opt : Option Nat) (use_revcomp : Bool) : Op → Nat
  | .single r =>
    sipHash13 (get_prefix_seq prefix_length_opt (singleCanonical r.seq use_revcomp).1)
  | .paired r =>
    let canonical := pairCanonical r.r1.seq r.r2.seq use_revcomp
    sipHash13 (pairHashStream prefix_length_opt canonical.1.1 canonical.1.2)

/-- The fingerprints of a whole operation sequence. -/
def opsFingerprints (prefix_length_opt : Option Nat) (use_revcomp : Bool)
    (ops : List Op) : List Nat :=
  ops.map (opFingerprint prefix_length_opt use_revcomp)

/-- Sum of all cluster sizes in the fingerprint map. -/
def sumSizes (m : List (Nat × Cluster)) : Nat := (m.map (fun p => p.2.size)).sum

/-- The fingerprint keys of the map, in storage order. -/
def keysOf (m : List (Nat × Cluster)) : List Nat := m.map Prod.fst

/-! ## Lemmas about the byte-slice primitives -/

/-- The slice comparison reports equality exactly on equal slices. -/
theorem lexCmp_eq_iff (a b : List Nat) : lexCmp a b = .eq ↔ a = b := by
  induction a generalizing b with
  | nil => cases b <;> simp [lexCmp]
  | cons x as ih =>
    cases b with
    | nil => simp [lexCmp]
    | cons y bs =>
      by_cases hxy : x < y
      · simp [lexCmp, hxy]
        intro h
        omega
      · by_cases hyx : y < x
        · simp [lexCmp, hxy, hyx]
          intro h
          omega
        · have hx : x = y := by omega
          simp [lexCmp, hxy, hyx, hx, ih]

/-- Swapping the arguments of the slice comparison swaps the verdict. -/
theorem lexCmp_swap (a b : List Nat) : lexCmp b a = (lexCmp a b).swap := by
  induction a generalizing b with
  | nil => cases b <;> simp [lexCmp, Ordering.swap]
  | cons x as ih =>
    cases b with
    | nil => simp [lexCmp, Ordering.swap]
    | cons y bs =>
      by_cases hxy : x < y
      · have : ¬ y < x := by omega
        simp [lexCmp, hxy, this, Ordering.swap]
      · by_cases hyx : y < x
        · simp [lexCmp, hxy, hyx, Ordering.swap]
        · simp [lexCmp, hxy, hyx, ih]

set_option maxRecDepth 8000 in
/-- Complementing a byte twice gives the byte back, on the u8 range. -/
theorem complement_complement : ∀ b < 256, complement (complement b) = b := by
  decide

/-- Complementing is the identity outside the u8 range (no table entry). -/
theorem complement_of_ge (b : Nat) (hb : 256 ≤ b) : complement b = b := by
  unfold complement
  repeat' split
  all_goals omega

/-- The reverse complement is an involution on byte sequences. -/
theorem revcomp_revcomp (l : List Nat) (hl : ∀ b ∈ l, b < 256) :
    revcomp (revcomp l) = l := by
  unfold revcomp
  rw [List.map_reverse, List.map_map]
  have : ∀ b ∈ l.reverse, (complement ∘ complement) b = id b := by
    intro b hb
    exact complement_complement b (hl b (List.mem_reverse.mp hb))
  rw [List.map_congr_left this, List.map_id, List.reverse_reverse]

/-! ## Lemmas about the fingerprint map -/

/-- A lookup misses exactly when the key is absent. -/
theorem findCluster_eq_none (m : List (Nat × Cluster)) (h : Nat) :
    findCluster m h = none ↔ h ∉ keysOf m := by
  induction m with
  | nil => simp [findCluster, keysOf]
  | cons p rest ih =>
    obtain ⟨k, cl⟩ := p
    by_cases hk : k = h
    · simp [findCluster, keysOf, hk]
    · simp [findCluster, keysOf, hk, ih]
      intro h'
      omega

/-- A successful lookup means the key is present. -/
theorem mem_keys_of_findCluster {m : List (Nat × Cluster)} {h : Nat} {cl : Cluster}
    (hfc : findCluster m h = some cl) : h ∈ keysOf m := by
  by_contra hmem
  rw [← findCluster_eq_none] at hmem
  rw [hfc] at hmem
  cases hmem

/-- Bumping a size leaves the key sequence unchanged. -/
theorem keysOf_bumpSize (m : List (Nat × Cluster)) (h : Nat) :
    keysOf (bumpSize m h) = keysOf m := by
  induction m with
  | nil => rfl
  | cons p rest ih =>
    obtain ⟨k, cl⟩ := p
    by_cases hk : k = h
    · simp [bumpSize, keysOf, hk]
    · simp only [bumpSize, keysOf, List.map_cons, if_neg hk]
      simpa [keysOf] using ih

/-- Bumping the size of a present key grows the size sum by one. -/
theorem sumSizes_bumpSize {m : List (Nat × Cluster)} {h : Nat} {cl : Cluster}
    (hfc : findCluster m h = some cl) :
    sumSizes (bumpSize m h) = sumSizes m + 1 := by
  induction m with
  | nil => cases hfc
  | cons p rest ih =>
    obtain ⟨k, pcl⟩ := p
    by_cases hk : k = h
    · simp [bumpSize, hk, sumSizes]
      omega
    · rw [findCluster] at hfc
      simp [hk] at hfc
      simp [bumpSize, hk, sumSizes] at ih ⊢
      have := ih hfc
      omega

/-- Appending a fresh entry grows the size sum by the new size. -/
theorem sumSizes_append (m : List (Nat × Cluster)) (p : Nat × Cluster) :
    sumSizes (m ++ [p]) = sumSizes m + p.2.size := by
  simp [sumSizes]

/-- The keys of an extended map. -/
theorem keysOf_append (m : List (Nat × Cluster)) (p : Nat × Cluster) :
    keysOf (m ++ [p]) = keysOf m ++ [p.1] := by
  simp [keysOf]

/-- After bumping a present key, the lookup sees the incremented size with
the same representative. -/
theorem findCluster_bumpSize {m : List (Nat × Cluster)} {h : Nat} {cl : Cluster}
    (hfc : findCluster m h = some cl) :
    findCluster (bumpSize m h) h = some ⟨cl.id, cl.size + 1⟩ := by
  induction m with
  | nil => cases hfc
  | cons p rest ih =>
    obtain ⟨k, pcl⟩ := p
    by_cases hk : k = h
    · rw [findCluster] at hfc
      simp [hk] at hfc
      simp [bumpSize, findCluster, hk, hfc]
    · rw [findCluster] at hfc
      simp [hk] at hfc
      simp [bumpSize, findCluster, hk]
      exact ih hfc

/-- Appending a fresh entry makes it visible to lookups of its key. -/
theorem findCluster_append_self {m : List (Nat × Cluster)} {h : Nat}
    (hfc : findCluster m h = none) (cl : Cluster) :
    findCluster (m ++ [(h, cl)]) h = some cl := by
  induction m with
  | nil => simp [findCluster]
  | cons p rest ih =>
    obtain ⟨k, pcl⟩ := p
    by_cases hk : k = h
    · rw [findCluster] at hfc
      simp [hk] at hfc
    · rw [findCluster] at hfc
      simp [hk] at hfc
      simpa [findCluster, hk] using ih hfc

/-! ## State characterization of insert_record -/

/-- On a fingerprint hit, insert_record bumps the cluster size, leaves the
first-seen order alone, and counts the record. -/
theorem insert_record_state_some {c : Clusters} {h : Nat} {cl : Cluster}
    (hfc : findCluster c.cluster_map h = some cl) (id : String) (f : Bool) :
    ((insert_record c h id f).1).cluster_map = bumpSize c.cluster_map h ∧
    ((insert_record c h id f).1).cluster_order = c.cluster_order ∧
    ((insert_record c h id f).1).total_records = c.total_records + 1 ∧
    ((insert_record c h id f).1).prefix_length_opt = c.prefix_length_opt := by
  unfold insert_record
  cases hw : c.cluster_csv_writer <;> simp [hfc, hw]

/-- On a fresh fingerprint, insert_record registers a singleton cluster,
appends the fingerprint to the first-seen order, and counts the record. -/
theorem insert_record_state_none {c : Clusters} {h : Nat}
    (hfc : findCluster c.cluster_map h = none) (id : String) (f : Bool) :
    ((insert_record c h id f).1).cluster_map = c.cluster_map ++ [(h, ⟨id, 1⟩)] ∧
    ((insert_record c h id f).1).cluster_order = c.cluster_order ++ [h] ∧
    ((insert_record c h id f).1).total_records = c.total_records + 1 ∧
    ((insert_record c h id f).1).prefix_length_opt = c.prefix_length_opt := by
  unfold insert_record
  cases hw : c.cluster_csv_writer <;> simp [hfc, hw]

/-! ## The registry invariant -/

/-- The bookkeeping invariant of the registry, relative to the list of
fingerprints inserted so far: the map keys are exactly the first-seen
order, which has no duplicates and carries the same fingerprint set as
the insertion history; the running total is the sum of all cluster
sizes; and the configured prefix length never changes. -/
def RegInv (pl : Option Nat) (hashes : List Nat) (c : Clusters) : Prop :=
  keysOf c.cluster_map = c.cluster_order ∧
  c.cluster_order.Nodup ∧
  c.total_records = sumSizes c.cluster_map ∧
  c.cluster_order.toFinset = hashes.toFinset ∧
  c.prefix_length_opt = pl

/-- Every insert_record call preserves the registry invariant, extending
the insertion history by the inserted fingerprint. -/
theorem insert_record_inv {pl : Option Nat} {hs : List Nat} {c : Clusters}
    (hinv : RegInv pl hs c) (h : Nat) (id : String) (f : Bool) :
    RegInv pl (hs ++ [h]) (insert_record c h id f).1 := by
  obtain ⟨hkeys, hnd, htot, hfin, hpl⟩ := hinv
  have horder : ∀ x, x ∈ c.cluster_order ↔ x ∈ hs := by
    intro x
    rw [← List.mem_toFinset, ← List.mem_toFinset, hfin]
  cases hfc : findCluster c.cluster_map h with
  | some cl =>
    obtain ⟨hm, ho, ht, hp⟩ := insert_record_state_some hfc id f
    have hmem : h ∈ c.cluster_order := by
      rw [← hkeys]
      exact mem_keys_of_findCluster hfc
    refine ⟨?_, ?_, ?_, ?_, ?_⟩
    · rw [hm, keysOf_bumpSize, ho, hkeys]
    · rw [ho]
      exact hnd
    · rw [ht, hm, sumSizes_bumpSize hfc, htot]
    · rw [ho]
      ext x
      simp only [List.mem_toFinset, List.mem_append, List.mem_singleton, horder x]
      constructor
      · exact fun hx => Or.inl hx
      · rintro (hx | hEq)
        · exact hx
        · cases hEq
          exact (horder _).mp hmem
    · rw [hp, hpl]
  | none =>
    obtain ⟨hm, ho, ht, hp⟩ := insert_record_state_none hfc id f
    have hmem : h ∉ c.cluster_order := by
      rw [← hkeys]
      exact (findCluster_eq_none _ _).mp hfc
    refine ⟨?_, ?_, ?_, ?_, ?_⟩
    · rw [hm, keysOf_append, ho, hkeys]
    · rw [ho, List.nodup_append]
      refine ⟨hnd, List.nodup_singleton h, ?_⟩
      intro x hx hx'
      rw [List.mem_singleton] at hx'
      subst hx'
      exact hmem hx
    · rw [ht, hm, sumSizes_append, htot]
    · rw [ho]
      ext x
      simp only [List.mem_toFinset, List.mem_append, List.mem_singleton, horder x]
    · rw [hp, hpl]

/-- One driving-loop step preserves the invariant. -/
theorem applyOp_inv {pl : Option Nat} {hs : List Nat} {c : Clusters} {flag : Bool}
    (hinv : RegInv pl hs c) (op : Op) :
    RegInv pl (hs ++ [opFingerprint pl flag op]) (applyOp flag c op).1 := by
  have hpl := hinv.2.2.2.2
  cases op with
  | single r =>
    have h := insert_record_inv hinv
      (sipHash13 (get_prefix_seq pl (singleCanonical r.seq flag).1)) r.id
      (singleCanonical r.seq flag).2
    simpa [applyOp, insert_single, opFingerprint, hpl] using h
  | paired r =>
    have h := insert_record_inv hinv
      (sipHash13 (pairHashStream pl (pairCanonical r.r1.seq r.r2.seq flag).1.1
        (pairCanonical r.r1.seq r.r2.seq flag).1.2)) r.id
      (pairCanonical r.r1.seq r.r2.seq flag).2
    simpa [applyOp, insert_pair, opFingerprint, hpl] using h

/-- Whole-run invariant preservation. -/
theorem runOps_inv {pl : Option Nat} {flag : Bool} :
    ∀ (ops : List Op) {hs : List Nat} {c : Clusters}, RegInv pl hs c →
      RegInv pl (hs ++ opsFingerprints pl flag ops) (runOps c flag ops) := by
  intro ops
  induction ops with
  | nil =>
    intro hs c hinv
    simpa [runOps, opsFingerprints] using hinv
  | cons op rest ih =>
    intro hs c hinv
    have hstep := @applyOp_inv pl hs c flag hinv op
    have h := ih hstep
    simpa [runOps, opsFingerprints, List.foldl_cons, List.append_assoc] using h

/-- A freshly constructed registry satisfies the invariant with an empty
insertion history. -/
theorem from_writer_inv {w : Option Sink} {pl : Option Nat} {c0 : Clusters}
    (hok : from_writer w pl = .ok c0) : RegInv pl [] c0 := by
  cases w with
  | none =>
    unfold from_writer at hok
    cases hok
    exact ⟨rfl, List.nodup_nil, rfl, rfl, rfl⟩
  | some w =>
    by_cases hb : (sinkWrite w ["representative read id", "read id"]).1
    · simp [from_writer, hb] at hok
      subst hok
      exact ⟨rfl, List.nodup_nil, rfl, rfl, rfl⟩
    · simp [from_writer, hb] at hok

/-- A member id is never equal to itself with the reverse-complement
marker appended. -/
theorem id_ne_rc (id : String) : id ≠ id ++ " (rc)" := by
  intro hEq
  have hdata := congrArg String.data hEq
  rw [String.data_append] at hdata
  have hlen := congrArg List.length hdata
  rw [List.length_append] at hlen
  have hrc : (" (rc)" : String).data.length = 5 := rfl
  omega

/-- Full behaviour of insert_record on a fresh fingerprint with a healthy
membership sink: register the cluster, append the order entry, write the
row (id, id), succeed with true. -/
theorem insert_record_full_none {c : Clusters} {h : Nat} {w : Sink}
    (hfc : findCluster c.cluster_map h = none)
    (hw : c.cluster_csv_writer = some w) (hout : w.outcomes = [])
    (id : String) (f : Bool) :
    insert_record c h id f =
      ({ c with
          total_records := c.total_records + 1,
          cluster_map := c.cluster_map ++ [(h, ⟨id, 1⟩)],
          cluster_order := c.cluster_order ++ [h],
          cluster_csv_writer := some ⟨w.rows ++ [[id, id]], []⟩ },
        .ok true) := by
  unfold insert_record
  simp [hfc, hw, sinkWrite, hout]

/-- Full behaviour of insert_record on a fingerprint hit with a healthy
membership sink: bump the size, write the row with the representative id
and the member id carrying the reverse-complement marker exactly when the
record was flipped, succeed with false. -/
theorem insert_record_full_some {c : Clusters} {h : Nat} {cl : Cluster} {w : Sink}
    (hfc : findCluster c.cluster_map h = some cl)
    (hw : c.cluster_csv_writer = some w) (hout : w.outcomes = [])
    (id : String) (f : Bool) :
    insert_record c h id f =
      ({ c with
          total_records := c.total_records + 1,
          cluster_map := bumpSize c.cluster_map h,
          cluster_csv_writer := some ⟨w.rows ++ [[cl.id, if f then id ++ " (rc)" else id]], []⟩ },
        .ok false) := by
  unfold insert_record
  simp [hfc, hw, sinkWrite, hout]

/-- Full behaviour of insert_record on a fresh fingerprint with no
membership sink configured. -/
theorem insert_record_nosink_none {c : Clusters} {h : Nat}
    (hfc : findCluster c.cluster_map h = none)
    (hw : c.cluster_csv_writer = none) (id : String) (f : Bool) :
    insert_record c h id f =
      ({ c with
          total_records := c.total_records + 1,
          cluster_map := c.cluster_map ++ [(h, ⟨id, 1⟩)],
          cluster_order := c.cluster_order ++ [h] },
        .ok true) := by
  unfold insert_record
  simp [hfc, hw]

/-- Full behaviour of insert_record on a fingerprint hit with no
membership sink configured. -/
theorem insert_record_nosink_some {c : Clusters} {h : Nat} {cl : Cluster}
    (hfc : findCluster c.cluster_map h = some cl)
    (hw : c.cluster_csv_writer = none) (id : String) (f : Bool) :
    insert_record c h id f =
      ({ c with
          total_records := c.total_records + 1,
          cluster_map := bumpSize c.cluster_map h },
        .ok false) := by
  unfold insert_record
  simp [hfc, hw]

/-- Full behaviour of insert_record on a fresh fingerprint when the
membership write fails: the error is returned, yet the record was
counted, the cluster registered and the fingerprint appended. -/
theorem insert_record_fail_none {c : Clusters} {h : Nat} {w : Sink} {rest : List Bool}
    (hfc : findCluster c.cluster_map h = none)
    (hw : c.cluster_csv_writer = some w) (hout : w.outcomes = false :: rest)
    (id : String) (f : Bool) :
    insert_record c h id f =
      ({ c with
          total_records := c.total_records + 1,
          cluster_map := c.cluster_map ++ [(h, ⟨id, 1⟩)],
          cluster_order := c.cluster_order ++ [h],
          cluster_csv_writer := some ⟨w.rows, rest⟩ },
        .error ()) := by
  unfold insert_record
  simp [hfc, hw, sinkWrite, hout]

/-- Full behaviour of insert_record on a fingerprint hit when the
membership write fails: the error is returned, yet the record was counted
and the cluster size was already bumped. -/
theorem insert_record_fail_some {c : Clusters} {h : Nat} {cl : Cluster} {w : Sink}
    {rest : List Bool}
    (hfc : findCluster c.cluster_map h = some cl)
    (hw : c.cluster_csv_writer = some w) (hout : w.outcomes = false :: rest)
    (id : String) (f : Bool) :
    insert_record c h id f =
      ({ c with
          total_records := c.total_records + 1,
          cluster_map := bumpSize c.cluster_map h,
          cluster_csv_writer := some ⟨w.rows, rest⟩ },
        .error ()) := by
  unfold insert_record
  simp [hfc, hw, sinkWrite, hout]

/-! ## Claim C3: the insert contract -/

/-- C3: every insert_record call increments total_records; a new
fingerprint creates a cluster with the record as representative and size
one, appends the fingerprint to the first-seen order, emits the row
(id, id) when a sink is configured, and returns true; an existing
fingerprint bumps that cluster's size, emits a row whose member id is
suffixed with " (rc)" exactly when was_flipped holds for this record,
and returns false. -/
theorem c3_insert_record_contract (c : Clusters) (h : Nat) (id : String) (f : Bool)
    (hhealthy : ∀ w, c.cluster_csv_writer = some w → w.outcomes = []) :
    (insert_record c h id f).1.total_records = c.total_records + 1 ∧
    (findCluster c.cluster_map h = none →
      findCluster (insert_record c h id f).1.cluster_map h = some ⟨id, 1⟩ ∧
      (insert_record c h id f).1.cluster_order = c.cluster_order ++ [h] ∧
      (insert_record c h id f).2 = .ok true ∧
      (∀ w, c.cluster_csv_writer = some w →
        membershipRows (insert_record c h id f).1 = some (w.rows ++ [[id, id]]))) ∧
    (∀ cl, findCluster c.cluster_map h = some cl →
      findCluster (insert_record c h id f).1.cluster_map h = some ⟨cl.id, cl.size + 1⟩ ∧
      (insert_record c h id f).1.cluster_order = c.cluster_order ∧
      (insert_record c h id f).2 = .ok false ∧
      (∀ w, c.cluster_csv_writer = some w →
        membershipRows (insert_record c h id f).1 =
          some (w.rows ++ [[cl.id, if f then id ++ " (rc)" else id]])) ∧
      ((if f then id ++ " (rc)" else id) = id ++ " (rc)" ↔ f = true)) := by
  have hiff : ((if f then id ++ " (rc)" else id) = id ++ " (rc)" ↔ f = true) := by
    cases f
    · simp [id_ne_rc id]
    · simp
  refine ⟨?_, ?_, ?_⟩
  · cases hfc : findCluster c.cluster_map h with
    | none => exact (insert_record_state_none hfc id f).2.2.1
    | some cl => exact (insert_record_state_some hfc id f).2.2.1
  · intro hfc
    cases hw : c.cluster_csv_writer with
    | some w =>
      have hout := hhealthy w hw
      rw [insert_record_full_none hfc hw hout id f]
      refine ⟨findCluster_append_self hfc _, rfl, rfl, ?_⟩
      intro w' hw'
      cases hw'
      simp [membershipRows]
    | none =>
      rw [insert_record_nosink_none hfc hw id f]
      refine ⟨findCluster_append_self hfc _, rfl, rfl, ?_⟩
      intro w' hw'
      cases hw'
  · intro cl hfc
    cases hw : c.cluster_csv_writer with
    | some w =>
      have hout := hhealthy w hw
      rw [insert_record_full_some hfc hw hout id f]
      refine ⟨findCluster_bumpSize hfc, rfl, rfl, ?_, hiff⟩
      intro w' hw'
      cases hw'
      simp [membershipRows]
    | none =>
      rw [insert_record_nosink_some hfc hw id f]
      refine ⟨findCluster_bumpSize hfc, rfl, rfl, ?_, hiff⟩
      intro w' hw'
      cases hw'

/-- Witness for C3: a concrete duplicate insert against a one-cluster
registry with a healthy sink. -/
theorem c3_witness :
    (insert_record ⟨[(7, ⟨"id_a", 1⟩)], [7], some ⟨[], []⟩, 1, none⟩ 7 "id_b" true).1.total_records = 2 ∧
    membershipRows (insert_record ⟨[(7, ⟨"id_a", 1⟩)], [7], some ⟨[], []⟩, 1, none⟩ 7 "id_b" true).1 =
      some [["id_a", "id_b" ++ " (rc)"]] := by
  have hhealthy : ∀ w : Sink,
      (⟨[(7, ⟨"id_a", 1⟩)], [7], some ⟨[], []⟩, 1, none⟩ : Clusters).cluster_csv_writer = some w →
      w.outcomes = [] := by
    intro w hw
    cases hw
    rfl
  have h := c3_insert_record_contract ⟨[(7, ⟨"id_a", 1⟩)], [7], some ⟨[], []⟩, 1, none⟩ 7 "id_b" true hhealthy
  have hsome := h.2.2 ⟨"id_a", 1⟩ (by simp [findCluster])
  refine ⟨h.1, ?_⟩
  simpa using hsome.2.2.2.1 ⟨[], []⟩ rfl

/-! ## Claim C9: first-occurrence rows ignore the flip flag -/

/-- C9: when a fingerprint is seen for the first time, insert_record
behaves identically for any was_flipped value, and the membership row it
writes is (id, id) with no reverse-complement marker even when the
record was flipped. -/
theorem c9_first_row_unmarked (c : Clusters) (h : Nat) (id : String)
    (hfc : findCluster c.cluster_map h = none) :
    (∀ f : Bool, insert_record c h id f = insert_record c h id false) ∧
    (∀ w, c.cluster_csv_writer = some w → w.outcomes = [] →
      membershipRows (insert_record c h id true).1 = some (w.rows ++ [[id, id]])) := by
  constructor
  · intro f
    unfold insert_record
    simp [hfc]
  · intro w hw hout
    rw [insert_record_full_none hfc hw hout id true]
    simp [membershipRows]

/-- Witness for C9: a concrete first occurrence whose canonical form was
the reverse complement still produces the unmarked row (id, id). -/
theorem c9_witness :
    insert_record ⟨[], [], some ⟨[], []⟩, 0, none⟩ 5 "id_a" true =
      insert_record ⟨[], [], some ⟨[], []⟩, 0, none⟩ 5 "id_a" false ∧
    membershipRows (insert_record ⟨[], [], some ⟨[], []⟩, 0, none⟩ 5 "id_a" true).1 =
      some [["id_a", "id_a"]] := by
  have h := c9_first_row_unmarked ⟨[], [], some ⟨[], []⟩, 0, none⟩ 5 "id_a" rfl
  exact ⟨h.1 true, by simpa using h.2 ⟨[], []⟩ rfl rfl⟩

/-! ## Claim C10: inserts are not atomic under sink failures -/

/-- C10: when the membership write fails and insert_record returns an
error, total_records has nevertheless been incremented, and on a first
occurrence the cluster is still registered and the fingerprint still
appended to the first-seen order. -/
theorem c10_insert_not_atomic (c : Clusters) (h : Nat) (id : String) (f : Bool)
    (w : Sink) (rest : List Bool)
    (hw : c.cluster_csv_writer = some w) (hout : w.outcomes = false :: rest) :
    (insert_record c h id f).2 = .error () ∧
    (insert_record c h id f).1.total_records = c.total_records + 1 ∧
    (findCluster c.cluster_map h = none →
      findCluster (insert_record c h id f).1.cluster_map h = some ⟨id, 1⟩ ∧
      (insert_record c h id f).1.cluster_order = c.cluster_order ++ [h]) := by
  cases hfc : findCluster c.cluster_map h with
  | none =>
    rw [insert_record_fail_none hfc hw hout id f]
    exact ⟨rfl, rfl, fun _ => ⟨findCluster_append_self hfc _, rfl⟩⟩
  | some cl =>
    rw [insert_record_fail_some hfc hw hout id f]
    refine ⟨rfl, rfl, ?_⟩
    intro hnone
    simp [hfc] at hnone

/-- Witness for C10: a concrete failing first-occurrence write. -/
theorem c10_witness :
    (insert_record ⟨[], [], some ⟨[], [false]⟩, 0, none⟩ 3 "id_a" false).2 = .error () ∧
    (insert_record ⟨[], [], some ⟨[], [false]⟩, 0, none⟩ 3 "id_a" false).1.total_records = 1 ∧
    findCluster (insert_record ⟨[], [], some ⟨[], [false]⟩, 0, none⟩ 3 "id_a" false).1.cluster_map 3 =
      some ⟨"id_a", 1⟩ ∧
    (insert_record ⟨[], [], some ⟨[], [false]⟩, 0, none⟩ 3 "id_a" false).1.cluster_order = [3] := by
  have h := c10_insert_not_atomic ⟨[], [], some ⟨[], [false]⟩, 0, none⟩ 3 "id_a" false ⟨[], [false]⟩ [] rfl rfl
  exact ⟨h.1, h.2.1, (h.2.2 rfl).1, (h.2.2 rfl).2⟩

/-! ## Claim C4: the counter invariants -/

/-- C4: after any sequence of insert operations from a freshly constructed
registry, total_records is the sum of all cluster sizes, unique_records
is both the number of fingerprint-map entries and the length of the
first-seen order (which is the number of distinct fingerprints inserted),
and duplicate_records is total_records minus unique_records. -/
theorem c4_registry_counters (w : Option Sink) (pl : Option Nat) (c0 : Clusters)
    (flag : Bool) (ops : List Op) (hok : from_writer w pl = .ok c0) :
    (runOps c0 flag ops).total_records = sumSizes (runOps c0 flag ops).cluster_map ∧
    unique_records (runOps c0 flag ops) = ((runOps c0 flag ops).cluster_map).length ∧
    unique_records (runOps c0 flag ops) = ((runOps c0 flag ops).cluster_order).length ∧
    unique_records (runOps c0 flag ops) = (opsFingerprints pl flag ops).toFinset.card ∧
    duplicate_records (runOps c0 flag ops) =
      (runOps c0 flag ops).total_records - unique_records (runOps c0 flag ops) := by
  have hinv := @runOps_inv pl flag ops [] c0 (from_writer_inv hok)
  obtain ⟨hkeys, hnd, htot, hfin, _⟩ := hinv
  rw [List.nil_append] at hfin
  have hlen : unique_records (runOps c0 flag ops) = ((runOps c0 flag ops).cluster_order).length := by
    rw [unique_records, ← hkeys, keysOf, List.length_map]
  refine ⟨htot, rfl, hlen, ?_, rfl⟩
  rw [hlen, ← List.toFinset_card_of_nodup hnd, hfin]

/-- Witness for C4: two identical and one distinct single-end record. -/
theorem c4_witness :
    from_writer none none = .ok ⟨[], [], none, 0, none⟩ ∧
    (runOps ⟨[], [], none, 0, none⟩ false
        [.single ⟨"id_a", [65]⟩, .single ⟨"id_b", [65]⟩, .single ⟨"id_c", [67]⟩]).total_records =
      sumSizes (runOps ⟨[], [], none, 0, none⟩ false
        [.single ⟨"id_a", [65]⟩, .single ⟨"id_b", [65]⟩, .single ⟨"id_c", [67]⟩]).cluster_map ∧
    unique_records (runOps ⟨[], [], none, 0, none⟩ false
        [.single ⟨"id_a", [65]⟩, .single ⟨"id_b", [65]⟩, .single ⟨"id_c", [67]⟩]) =
      (opsFingerprints none false
        [.single ⟨"id_a", [65]⟩, .single ⟨"id_b", [65]⟩, .single ⟨"id_c", [67]⟩]).toFinset.card ∧
    duplicate_records (runOps ⟨[], [], none, 0, none⟩ false
        [.single ⟨"id_a", [65]⟩, .single ⟨"id_b", [65]⟩, .single ⟨"id_c", [67]⟩]) =
      (runOps ⟨[], [], none, 0, none⟩ false
        [.single ⟨"id_a", [65]⟩, .single ⟨"id_b", [65]⟩, .single ⟨"id_c", [67]⟩]).total_records -
      unique_records (runOps ⟨[], [], none, 0, none⟩ false
        [.single ⟨"id_a", [65]⟩, .single ⟨"id_b", [65]⟩, .single ⟨"id_c", [67]⟩]) := by
  have h := c4_registry_counters none none ⟨[], [], none, 0, none⟩ false
    [.single ⟨"id_a", [65]⟩, .single ⟨"id_b", [65]⟩, .single ⟨"id_c", [67]⟩] rfl
  exact ⟨rfl, h.1, h.2.2.2.1, h.2.2.2.2⟩

/-! ## Claim C6: the size summary -/

/-- Mapping the size-row lookup over the key sequence of a duplicate-free
association list reproduces the stored entries in storage order. -/
theorem mapKeys_sizeRow (m : List (Nat × Cluster)) (hnd : (keysOf m).Nodup) :
    (keysOf m).map (sizeRow m) = m.map (fun p => [p.2.id, toString p.2.size]) := by
  induction m with
  | nil => rfl
  | cons p rest ih =>
    obtain ⟨k, cl⟩ := p
    rw [keysOf, List.map_cons] at hnd ⊢
    rw [List.nodup_cons] at hnd
    obtain ⟨hk, hrest⟩ := hnd
    rw [List.map_cons]
    congr 1
    · simp [sizeRow, findCluster]
    · have hcongr : ∀ h ∈ (rest.map Prod.fst), sizeRow ((k, cl) :: rest) h = sizeRow rest h := by
        intro h hh
        have hne : k ≠ h := fun hEq => hk (hEq ▸ hh)
        simp [sizeRow, findCluster, hne]
      rw [List.map_congr_left hcongr]
      exact ih hrest

/-- C6: for every registry state reachable from a fresh construction, the
size summary is exactly one header row followed by one row per distinct
cluster in first-seen order, each row being the representative id and
the decimal size; in the three-record scenario with ids id_a, id_b
sharing a sequence and id_c distinct, the summary is the header, then
(id_a, 2), then (id_c, 1). -/
theorem c6_size_summary (w : Option Sink) (pl : Option Nat) (c0 : Clusters)
    (flag : Bool) (ops : List Op) (hok : from_writer w pl = .ok c0) :
    (write_sizes (runOps c0 flag ops) =
      ["representative read id", "cluster size"] ::
        (runOps c0 flag ops).cluster_map.map (fun p => [p.2.id, toString p.2.size])) ∧
    write_sizes (runOps ⟨[], [], none, 0, none⟩ false
        [.single ⟨"id_a", [65]⟩, .single ⟨"id_b", [65]⟩, .single ⟨"id_c", [67]⟩]) =
      [["representative read id", "cluster size"], ["id_a", "2"], ["id_c", "1"]] := by
  constructor
  · have hinv := @runOps_inv pl flag ops [] c0 (from_writer_inv hok)
    obtain ⟨hkeys, hnd, _, _, _⟩ := hinv
    have hndk : (keysOf (runOps c0 flag ops).cluster_map).Nodup := by
      rw [hkeys]
      exact hnd
    rw [write_sizes, ← hkeys, mapKeys_sizeRow _ hndk]
  · decide

/-- Witness for C6: the general shape applied to the concrete scenario. -/
theorem c6_witness :
    from_writer none none = .ok ⟨[], [], none, 0, none⟩ ∧
    write_sizes (runOps ⟨[], [], none, 0, none⟩ false
        [.single ⟨"id_a", [65]⟩, .single ⟨"id_b", [65]⟩, .single ⟨"id_c", [67]⟩]) =
      ["representative read id", "cluster size"] ::
        (runOps ⟨[], [], none, 0, none⟩ false
          [.single ⟨"id_a", [65]⟩, .single ⟨"id_b", [65]⟩, .single ⟨"id_c", [67]⟩]).cluster_map.map
          (fun p => [p.2.id, toString p.2.size]) := by
  have h := c6_size_summary none none ⟨[], [], none, 0, none⟩ false
    [.single ⟨"id_a", [65]⟩, .single ⟨"id_b", [65]⟩, .single ⟨"id_c", [67]⟩] rfl
  exact ⟨rfl, h.1⟩

/-! ## Claim C8: determinism -/

/-- C8: the engine is deterministic.  In this embedding every source of
hashing state is fixed (DefaultHasher is SipHash-1-3 with constant zero
keys), so the whole run is a pure function of the configuration and the
input records: two executions over byte-identical input compute
identical fingerprints, identical registry states, and identical
membership and size-summary output. -/
theorem c8_determinism (w : Option Sink) (pl : Option Nat) (c0 : Clusters)
    (flag : Bool) (ops1 ops2 : List Op)
    (_hok : from_writer w pl = .ok c0) (hops : ops1 = ops2) :
    opsFingerprints pl flag ops1 = opsFingerprints pl flag ops2 ∧
    runOps c0 flag ops1 = runOps c0 flag ops2 ∧
    membershipRows (runOps c0 flag ops1) = membershipRows (runOps c0 flag ops2) ∧
    write_sizes (runOps c0 flag ops1) = write_sizes (runOps c0 flag ops2) := by
  subst hops
  exact ⟨rfl, rfl, rfl, rfl⟩

/-- Witness for C8: a concrete run compared with its repetition. -/
theorem c8_witness :
    from_writer (some ⟨[], []⟩) (some 10) =
      .ok ⟨[], [], some ⟨[["representative read id", "read id"]], []⟩, 0, some 10⟩ ∧
    membershipRows (runOps ⟨[], [], some ⟨[["representative read id", "read id"]], []⟩, 0, some 10⟩
        true [.single ⟨"id_a", [65, 67]⟩]) =
      membershipRows (runOps ⟨[], [], some ⟨[["representative read id", "read id"]], []⟩, 0, some 10⟩
        true [.single ⟨"id_a", [65, 67]⟩]) := by
  have h := c8_determinism (some ⟨[], []⟩) (some 10)
    ⟨[], [], some ⟨[["representative read id", "read id"]], []⟩, 0, some 10⟩
    true [.single ⟨"id_a", [65, 67]⟩] [.single ⟨"id_a", [65, 67]⟩] rfl rfl
  exact ⟨rfl, h.2.2.1⟩

/-! ## Claim C1: the paired canonical selection is inverted -/

/-- C1 (code bug): take the mate pair A = "AAC", B = "AAA", strand
symmetry on.  The original tuple is strictly smaller than its
reverse-complemented tuple ("GTT", "TTT"), so the claim (like the
specification and the comment inside insert_pair itself) requires the
original orientation with was_flipped = false; but insert_pair
canonicalizes to the reverse-complemented, lexicographically LARGER pair
with was_flipped = true — its comparison branches are swapped relative
to insert_single. -/
theorem c1_pair_canonical_inverted :
    pairLt ([65, 65, 67], [65, 65, 65]) (revcomp [65, 65, 67], revcomp [65, 65, 65]) = true ∧
    pairCanonical [65, 65, 67] [65, 65, 65] true =
      ((revcomp [65, 65, 67], revcomp [65, 65, 65]), true) ∧
    pairCanonical [65, 65, 67] [65, 65, 65] true ≠ (([65, 65, 67], [65, 65, 65]), false) := by
  exact ⟨by decide, by decide, by decide⟩

/-! ## Claim C2: strand-symmetric single-end deduplication -/

/-- Canonical selection when the original sequence is not above its
reverse complement. -/
theorem singleCanonical_of_le {seq : List Nat} (hle : lexLe seq (revcomp seq) = true) :
    singleCanonical seq true = (seq, false) := by
  simp [singleCanonical, hle]

/-- Canonical selection when the original sequence is above its reverse
complement. -/
theorem singleCanonical_of_gt {seq : List Nat} (hle : lexLe seq (revcomp seq) = false) :
    singleCanonical seq true = (revcomp seq, true) := by
  simp [singleCanonical, hle]

/-- C2 (counterexample): start from a freshly constructed registry with a
membership sink and strand symmetry on, and insert S = "TT" (bytes
[84, 84]) as "id1", then revcomp(S) = "AA" as "id2".  S is not a
palindrome, one cluster results — but the second membership row is
("id1", "id2"), with no " (rc)" marker: the first record was the one
stored flipped, so the claim's universally quantified marking of the
second row is false. -/
theorem c2_counterexample :
    ([84, 84] : List Nat) ≠ revcomp [84, 84] ∧
    from_writer (some ⟨[], []⟩) none =
      .ok ⟨[], [], some ⟨[["representative read id", "read id"]], []⟩, 0, none⟩ ∧
    unique_records (runOps ⟨[], [], some ⟨[["representative read id", "read id"]], []⟩, 0, none⟩
      true [.single ⟨"id1", [84, 84]⟩, .single ⟨"id2", revcomp [84, 84]⟩]) = 1 ∧
    membershipRows (runOps ⟨[], [], some ⟨[["representative read id", "read id"]], []⟩, 0, none⟩
      true [.single ⟨"id1", [84, 84]⟩, .single ⟨"id2", revcomp [84, 84]⟩]) =
      some [["representative read id", "read id"], ["id1", "id1"], ["id1", "id2"]] ∧
    (["id1", "id2"] : List String) ≠ ["id1", "id2" ++ " (rc)"] := by
  exact ⟨by decide, rfl, by decide, by decide, by decide⟩

/-- C2 (amended): with strand symmetry on and a membership sink
configured, inserting a byte sequence S and then revcomp(S)
(non-palindromic) yields exactly one cluster, and the second record's
membership row carries the " (rc)" marker if and only if S is
lexicographically smaller than revcomp(S) — i.e. iff the first record
was the one stored in its original orientation.  (The frozen claim
asserted the marker unconditionally; the counterexample S = "TT" shows
the marker is absent when revcomp(S) < S.) -/
theorem c2_amended_strand_symmetry (S : List Nat) (id1 id2 : String)
    (rows0 : List (List String)) (pl : Option Nat)
    (hbytes : ∀ b ∈ S, b < 256) (hnp : S ≠ revcomp S) :
    unique_records (runOps ⟨[], [], some ⟨rows0, []⟩, 0, pl⟩ true
      [.single ⟨id1, S⟩, .single ⟨id2, revcomp S⟩]) = 1 ∧
    membershipRows (runOps ⟨[], [], some ⟨rows0, []⟩, 0, pl⟩ true
      [.single ⟨id1, S⟩, .single ⟨id2, revcomp S⟩]) =
      some (rows0 ++ [[id1, id1],
        [id1, if lexCmp S (revcomp S) = .lt then id2 ++ " (rc)" else id2]]) := by
  have hrS := revcomp_revcomp S hbytes
  cases hcmp : lexCmp S (revcomp S) with
  | eq => exact absurd ((lexCmp_eq_iff _ _).mp hcmp) hnp
  | lt =>
    have hle1 : lexLe S (revcomp S) = true := by simp [lexLe, hcmp]
    have hgt2 : lexCmp (revcomp S) S = .gt := by rw [lexCmp_swap, hcmp]; rfl
    have hle2 : lexLe (revcomp S) (revcomp (revcomp S)) = false := by
      rw [hrS]
      simp [lexLe, hgt2]
    have hc1 := singleCanonical_of_le hle1
    have hc2 : singleCanonical (revcomp S) true = (S, true) := by
      rw [singleCanonical_of_gt hle2, hrS]
    simp only [runOps, List.foldl_cons, List.foldl_nil, applyOp]
    simp [insert_single, hc1, hc2, insert_record, findCluster, sinkWrite,
      membershipRows, unique_records, bumpSize]
  | gt =>
    have hle1 : lexLe S (revcomp S) = false := by simp [lexLe, hcmp]
    have hlt2 : lexCmp (revcomp S) S = .lt := by rw [lexCmp_swap, hcmp]; rfl
    have hle2 : lexLe (revcomp S) (revcomp (revcomp S)) = true := by
      rw [hrS]
      simp [lexLe, hlt2]
    have hc1 := singleCanonical_of_gt hle1
    have hc2 : singleCanonical (revcomp S) true = (revcomp S, false) :=
      singleCanonical_of_le hle2
    simp only [runOps, List.foldl_cons, List.foldl_nil, applyOp]
    simp [insert_single, hc1, hc2, insert_record, findCluster, sinkWrite,
      membershipRows, unique_records, bumpSize]

/-- Witness for the amended C2, at S = "TT" (where the marker is absent). -/
theorem c2_witness :
    (∀ b ∈ ([84, 84] : List Nat), b < 256) ∧
    ([84, 84] : List Nat) ≠ revcomp [84, 84] ∧
    unique_records (runOps ⟨[], [], some ⟨[], []⟩, 0, none⟩ true
      [.single ⟨"id1", [84, 84]⟩, .single ⟨"id2", revcomp [84, 84]⟩]) = 1 ∧
    membershipRows (runOps ⟨[], [], some ⟨[], []⟩, 0, none⟩ true
      [.single ⟨"id1", [84, 84]⟩, .single ⟨"id2", revcomp [84, 84]⟩]) =
      some ([] ++ [["id1", "id1"],
        ["id1", if lexCmp [84, 84] (revcomp [84, 84]) = .lt then "id2" ++ " (rc)" else "id2"]]) := by
  have h := c2_amended_strand_symmetry [84, 84] "id1" "id2" [] none
    (by decide) (by decide)
  exact ⟨by decide, by decide, h.1, h.2⟩

/-! ## Claim C5: prefix truncation and collapse -/

/-- With no prefix length configured the whole sequence is hashed. -/
theorem get_prefix_seq_none (seq : List Nat) : get_prefix_seq none seq = seq := by
  simp [get_prefix_seq]

/-- With a prefix length N configured the first min(N, length) bytes are
hashed, which is exactly List.take N. -/
theorem get_prefix_seq_some (N : Nat) (seq : List Nat) :
    get_prefix_seq (some N) seq = seq.take N := by
  unfold get_prefix_seq
  rcases Nat.le_total N seq.length with h | h
  · simp [Nat.min_eq_left h]
  · simp [Nat.min_eq_right h, List.take_length, List.take_of_length_le h]

/-- Two single-end records whose truncated sequences hash alike end up in
one cluster. -/
theorem two_singles_collapse (pl : Option Nat) (s t : List Nat) (id1 id2 : String)
    (hh : sipHash13 (get_prefix_seq pl s) = sipHash13 (get_prefix_seq pl t)) :
    unique_records (runOps ⟨[], [], none, 0, pl⟩ false
      [.single ⟨id1, s⟩, .single ⟨id2, t⟩]) = 1 := by
  simp only [runOps, List.foldl_cons, List.foldl_nil, applyOp]
  simp [insert_single, singleCanonical, insert_record, findCluster, hh,
    unique_records, bumpSize]

/-- Two single-end records whose truncated sequences hash differently end
up in two clusters. -/
theorem two_singles_separate (pl : Option Nat) (s t : List Nat) (id1 id2 : String)
    (hh : sipHash13 (get_prefix_seq pl s) ≠ sipHash13 (get_prefix_seq pl t)) :
    unique_records (runOps ⟨[], [], none, 0, pl⟩ false
      [.single ⟨id1, s⟩, .single ⟨id2, t⟩]) = 2 := by
  simp only [runOps, List.foldl_cons, List.foldl_nil, applyOp]
  simp [insert_single, singleCanonical, insert_record, findCluster, hh,
    unique_records, bumpSize]

/-- The 64-bit fingerprint is always below 2 ^ 64. -/
theorem sipHash13_lt (data : List Nat) : sipHash13 data < 2 ^ 64 := by
  simp only [sipHash13, xor64]
  exact Nat.mod_lt _ (by norm_num)

/-- Pigeonhole: any 64-bit-valued function on the 255 ^ 9 nonzero-byte
9-tuples takes some value twice. -/
theorem exists_fingerprint_collision (F : (Fin 9 → Fin 255) → Nat)
    (hF : ∀ g, F g < 2 ^ 64) :
    ∃ g1 g2 : Fin 9 → Fin 255, g1 ≠ g2 ∧ F g1 = F g2 := by
  have hcard : Fintype.card (Fin (2 ^ 64)) < Fintype.card (Fin 9 → Fin 255) := by
    rw [Fintype.card_fun, Fintype.card_fin, Fintype.card_fin, Fintype.card_fin]
    norm_num
  obtain ⟨g1, g2, hne, hEq⟩ := Fintype.exists_ne_map_eq_of_card_lt
    (fun g : Fin 9 → Fin 255 => (⟨F g, hF g⟩ : Fin (2 ^ 64))) hcard
  exact ⟨g1, g2, hne, congrArg Fin.val hEq⟩

/-- The 9-tuple-to-byte-sequence encoding (each byte is a value in
1..255) is injective. -/
theorem byteSeq_inj {g1 g2 : Fin 9 → Fin 255}
    (h : List.ofFn (fun i => ((g1 i) : Nat) + 1) =
      List.ofFn (fun i => ((g2 i) : Nat) + 1)) : g1 = g2 := by
  have h2 := List.ofFn_inj.mp h
  funext i
  have h3 := congrFun h2 i
  simp only [] at h3
  have : ((g1 i) : Nat) = ((g2 i) : Nat) := by omega
  exact Fin.ext this

/-- C5 (counterexample): the claim that two single records with different
sequences never collapse into one cluster is false — the fingerprint is
a 64-bit hash, so among the 255 ^ 9 distinct 9-byte sequences two must
collide, and inserting such a pair with no prefix length configured
yields one cluster despite the sequences differing.  (The specification
itself concedes this: hash collisions are an accepted correctness
risk.) -/
theorem c5_counterexample :
    ∃ s t : List Nat, s ≠ t ∧
      unique_records (runOps ⟨[], [], none, 0, none⟩ false
        [.single ⟨"id1", s⟩, .single ⟨"id2", t⟩]) = 1 := by
  obtain ⟨g1, g2, hne, hEq⟩ := exists_fingerprint_collision
    (fun g => sipHash13 (List.ofFn (fun i => ((g i) : Nat) + 1)))
    (fun _ => sipHash13_lt _)
  refine ⟨List.ofFn (fun i => ((g1 i) : Nat) + 1),
    List.ofFn (fun i => ((g2 i) : Nat) + 1), ?_, ?_⟩
  · intro hEq'
    exact hne (byteSeq_inj hEq')
  · apply two_singles_collapse
    rw [get_prefix_seq_none, get_prefix_seq_none]
    exact hEq

/-- C5 (amended): with a configured prefix length N each sequence is
truncated to its first min(N, length) bytes before hashing, so two
single records agreeing on their first N bytes collapse into one
cluster; with no prefix length, two single records collapse into
separate clusters whenever their 64-bit fingerprints differ — sequence
inequality alone guarantees separation only up to the accepted risk of
hash collisions. -/
theorem c5_amended_prefix_truncation :
    (∀ (N : Nat) (seq : List Nat), get_prefix_seq (some N) seq = seq.take N) ∧
    (∀ (N : Nat) (s t : List Nat) (id1 id2 : String), s.take N = t.take N →
      unique_records (runOps ⟨[], [], none, 0, some N⟩ false
        [.single ⟨id1, s⟩, .single ⟨id2, t⟩]) = 1) ∧
    (∀ (s t : List Nat) (id1 id2 : String), sipHash13 s ≠ sipHash13 t →
      unique_records (runOps ⟨[], [], none, 0, none⟩ false
        [.single ⟨id1, s⟩, .single ⟨id2, t⟩]) = 2) := by
  refine ⟨get_prefix_seq_some, ?_, ?_⟩
  · intro N s t id1 id2 htake
    apply two_singles_collapse
    rw [get_prefix_seq_some, get_prefix_seq_some, htake]
  · intro s t id1 id2 hne
    apply two_singles_separate
    rw [get_prefix_seq_none, get_prefix_seq_none]
    exact hne

/-- Witness for the amended C5: sequences "AA" and "AB" agree on their
first byte and collapse under prefix length 1; sequences "A" and "C"
have different fingerprints and stay separate with no prefix length. -/
theorem c5_witness :
    ([65, 65] : List Nat).take 1 = ([65, 66] : List Nat).take 1 ∧
    unique_records (runOps ⟨[], [], none, 0, some 1⟩ false
      [.single ⟨"id_a", [65, 65]⟩, .single ⟨"id_b", [65, 66]⟩]) = 1 ∧
    sipHash13 [65] ≠ sipHash13 [67] ∧
    unique_records (runOps ⟨[], [], none, 0, none⟩ false
      [.single ⟨"id_a", [65]⟩, .single ⟨"id_b", [67]⟩]) = 2 := by
  have h := c5_amended_prefix_truncation
  exact ⟨by decide, h.2.1 1 [65, 65] [65, 66] "id_a" "id_b" (by decide),
    by decide, h.2.2 [65] [67] "id_a" "id_b" (by decide)⟩

/-! ## Claim C7: the paired separator -/

/-- With zero-free first components, the four-zero-byte separator locates
the mate boundary: equal separated streams force equal splits. -/
theorem sep_stream_inj :
    ∀ (p1 q1 p2 q2 : List Nat), (∀ b ∈ p1, b ≠ 0) → (∀ b ∈ q1, b ≠ 0) →
      p1 ++ [0, 0, 0, 0] ++ p2 = q1 ++ [0, 0, 0, 0] ++ q2 → p1 = q1 ∧ p2 = q2 := by
  intro p1
  induction p1 with
  | nil =>
    intro q1 p2 q2 hp hq hEq
    cases q1 with
    | nil => simpa using hEq
    | cons b q1' =>
      rw [List.nil_append, List.cons_append] at hEq
      have hb := (List.cons.injEq _ _ _ _).mp hEq
      exact absurd hb.1.symm (hq b (List.mem_cons_self b q1'))
  | cons a p1' ih =>
    intro q1 p2 q2 hp hq hEq
    cases q1 with
    | nil =>
      rw [List.nil_append, List.cons_append] at hEq
      have ha := (List.cons.injEq _ _ _ _).mp hEq
      exact absurd ha.1 (hp a (List.mem_cons_self a p1'))
    | cons b q1' =>
      rw [List.cons_append, List.cons_append] at hEq
      have hab := (List.cons.injEq _ _ _ _).mp hEq
      have htail := ih q1' p2 q2 (fun x hx => hp x (List.mem_cons_of_mem a hx))
        (fun x hx => hq x (List.mem_cons_of_mem b hx)) hab.2
      exact ⟨by rw [hab.1, htail.1], htail.2⟩

/-- C7 (counterexample): take the mate pairs ([0], []) and ([], [0]) —
same combined content, different mate-boundary split.  Their pre-hash
byte streams coincide (both are five zero bytes), hence so do their
fingerprints, and inserting both yields a single cluster: the separator
is four zero bytes, which is not a value reserved out of the byte
streams fed to the hasher. -/
theorem c7_counterexample :
    pairHashStream none [0] [] = pairHashStream none [] [0] ∧
    (([0], ([] : List Nat)) : List Nat × List Nat) ≠ (([] : List Nat), [0]) ∧
    sipHash13 (pairHashStream none [0] []) = sipHash13 (pairHashStream none [] [0]) ∧
    unique_records (runOps ⟨[], [], none, 0, none⟩ false
      [.paired ⟨⟨"id1", [0]⟩, ⟨"id1", []⟩, "id1"⟩,
        .paired ⟨⟨"id2", []⟩, ⟨"id2", [0]⟩, "id2"⟩]) = 1 := by
  exact ⟨by decide, by decide, by decide, by decide⟩

/-- C7 (amended): the paired fingerprint hashes the ordered concatenation
of the truncated mate-1 bytes, the four zero bytes of the i32 separator,
and the truncated mate-2 bytes; for mate-1 sequences free of the zero
byte (as nucleotide data is), differing splits produce differing
pre-hash streams — and in particular the claim's example ("AC", "GT")
versus ("A", "CGT") produces distinct streams and distinct fingerprints.
Distinct streams guarantee distinct fingerprints only up to the accepted
risk of 64-bit hash collisions. -/
theorem c7_amended_separator :
    (∀ (pl : Option Nat) (r1_canon r2_canon : List Nat),
      pairHashStream pl r1_canon r2_canon =
        get_prefix_seq pl r1_canon ++ [0, 0, 0, 0] ++ get_prefix_seq pl r2_canon) ∧
    (∀ p1 p2 q1 q2 : List Nat, (∀ b ∈ p1, b ≠ 0) → (∀ b ∈ q1, b ≠ 0) →
      (p1, p2) ≠ (q1, q2) →
      pairHashStream none p1 p2 ≠ pairHashStream none q1 q2) ∧
    pairHashStream none [65, 67] [71, 84] ≠ pairHashStream none [65] [67, 71, 84] ∧
    sipHash13 (pairHashStream none [65, 67] [71, 84]) ≠
      sipHash13 (pairHashStream none [65] [67, 71, 84]) := by
  refine ⟨fun pl r1c r2c => rfl, ?_, by decide, by decide⟩
  intro p1 p2 q1 q2 hp hq hne hEq
  rw [pairHashStream, pairHashStream, get_prefix_seq_none, get_prefix_seq_none,
    get_prefix_seq_none, get_prefix_seq_none] at hEq
  obtain ⟨e1, e2⟩ := sep_stream_inj p1 q1 p2 q2 hp hq hEq
  exact hne (by rw [e1, e2])

/-- Witness for the amended C7, at the claim's own example pairs. -/
theorem c7_witness :
    (∀ b ∈ ([65, 67] : List Nat), b ≠ 0) ∧
    (∀ b ∈ ([65] : List Nat), b ≠ 0) ∧
    (([65, 67], [71, 84]) : List Nat × List Nat) ≠ ([65], [67, 71, 84]) ∧
    pairHashStream none [65, 67] [71, 84] ≠ pairHashStream none [65] [67, 71, 84] := by
  have h := c7_amended_separator
  exact ⟨by decide, by decide, by decide,
    h.2.1 [65, 67] [71, 84] [65] [67, 71, 84] (by decide) (by decide) (by decide)⟩
